import Mathlib

/-!
Shallow embedding of `easytier-core/src/peers/peer.rs` (the `Peer` aggregate:
connection registry, closure funnel, shutdown protocol).

Modelling conventions:
* `Uuid` is modelled as `Nat` (`ConnId`); payload bytes (`Bytes`) as `Nat`.
* The `DashMap<Uuid, Arc<Mutex<PeerConn>>>` registry is an association list
  `List (ConnId × PeerConn)`; `DashMap::insert` replaces the binding under an
  existing key, modelled as remove-then-append (iteration order of a `DashMap`
  is unspecified, so any order-preserving choice is faithful).
  `conns.iter().next()` is the head of the list.
* The bounded `mpsc::channel(10)` of close events is a FIFO `List ConnId`
  (`close_event_queue`); capacity-induced suspension is not modelled, but the
  failure of `Sender::send` on a closed channel is: `close_peer_conn` unwraps
  that send, so a closed receiver yields the `panicked` outcome.
* `tokio::sync::Notify` is a single-permit flag (`shutdown_notified`);
  `notify_one` stores the permit, the funnel's `notified()` branch consumes it.
* `global_ctx.issue_event` appends to an event log (`events`).
* The `PeerConn` collaborator (external to this file's source) is modelled at
  its interface boundary: a stable `conn_id`, a `PeerConnInfo`, flags recording
  that `set_close_event_sender` / `start_recv_loop` / `start_pingpong` were
  called, and an abstract outcome `send_result` of its own `send_msg`.
* The closure-funnel task body (the `select!` loop in `Peer::new`) is split
  into `funnel_process_id` (one received id), `drain_queue` (consuming the
  queued ids in order), and `funnel_shutdown_step` (the `notified()` branch).
-/

namespace EasyTier

abbrev ConnId := Nat

/-- Model of `crate::rpc::PeerConnInfo`, abstracted: carries the connection id it
describes plus opaque detail. -/
structure PeerConnInfo where
  conn_id : ConnId
  detail : Nat
deriving DecidableEq, Repr

/-- The variants of `crate::common::error::Error` used by `peer.rs`:
`NotFound`, `PeerNoConnectionError(Uuid)`, and an opaque transport-level
failure a connection's own `send_msg` may return. -/
inductive Error where
  | NotFound : Error
  | PeerNoConnectionError : Nat → Error
  | TunnelError : Nat → Error
deriving DecidableEq, Repr

/-- Interface-boundary model of `PeerConn`. -/
structure PeerConn where
  conn_id : ConnId
  info : PeerConnInfo
  close_event_sender_set : Bool
  recv_loop_chan : Option Nat
  pingpong_started : Bool
  send_result : Option Error
deriving DecidableEq, Repr

def get_conn_id (c : PeerConn) : ConnId := c.conn_id

def get_conn_info (c : PeerConn) : PeerConnInfo := c.info

def set_close_event_sender (c : PeerConn) : PeerConn :=
  { c with close_event_sender_set := true }

def start_recv_loop (c : PeerConn) (packet_recv_chan : Nat) : PeerConn :=
  { c with recv_loop_chan := some packet_recv_chan }

def start_pingpong (c : PeerConn) : PeerConn :=
  { c with pingpong_started := true }

/-- The connection's own `send_msg`: `none` is `Ok(())`, `some e` is `Err(e)`.
The abstract behaviour is carried by the handle. -/
def conn_send_msg (c : PeerConn) (_msg : Nat) : Option Error := c.send_result

/-- The `GlobalCtxEvent` variants issued by `peer.rs`. -/
inductive GlobalCtxEvent where
  | PeerConnAdded : PeerConnInfo → GlobalCtxEvent
  | PeerConnRemoved : PeerConnInfo → GlobalCtxEvent
deriving DecidableEq, Repr

abbrev ConnMap := List (ConnId × PeerConn)

def containsKey (m : ConnMap) (k : ConnId) : Bool :=
  m.any (fun kc => kc.1 == k)

def lookupConn : ConnMap → ConnId → Option PeerConn
  | [], _ => none
  | kc :: rest, k => if kc.1 == k then some kc.2 else lookupConn rest k

/-- Model of `DashMap::remove` (the registry's only removal); removing a missing key is
a no-op. -/
def removeConn (m : ConnMap) (k : ConnId) : ConnMap :=
  m.filter (fun kc => kc.1 != k)

/-- Model of `DashMap::insert`: replaces any existing binding of the key. -/
def insertConn (m : ConnMap) (k : ConnId) (v : PeerConn) : ConnMap :=
  removeConn m k ++ [(k, v)]

def countKey (m : ConnMap) (k : ConnId) : Nat :=
  (m.filter (fun kc => kc.1 == k)).length

/-- Registry well-formedness: keys are pairwise distinct and each stored
handle's info describes its own key (guaranteed by `add_peer_conn`, which
inserts under `conn.get_conn_id()`). -/
def connsWF : ConnMap → Bool
  | [] => true
  | (k, c) :: rest => (c.info.conn_id == k) && !(containsKey rest k) && connsWF rest

/-- State of one `Peer` together with its spawned funnel task and the global
context's event log. -/
structure Peer where
  peer_node_id : Nat
  conns : ConnMap
  packet_recv_chan : Nat
  close_event_queue : List ConnId
  events : List GlobalCtxEvent
  shutdown_notified : Bool
  receiver_closed : Bool
deriving DecidableEq, Repr

/-- Model of `Peer::new`: empty registry, fresh channel, funnel task started. -/
def Peer.new (peer_node_id : Nat) (packet_recv_chan : Nat) : Peer :=
  { peer_node_id := peer_node_id
    conns := []
    packet_recv_chan := packet_recv_chan
    close_event_queue := []
    events := []
    shutdown_notified := false
    receiver_closed := false }

def issue_event (p : Peer) (e : GlobalCtxEvent) : Peer :=
  { p with events := p.events ++ [e] }

/-- Funnel loop, recv branch, one received id: `if let Some((_, conn)) =
conns.remove(&ret) { issue_event(PeerConnRemoved(conn.get_conn_info())) }`. -/
def funnel_process_id (conns : ConnMap) (events : List GlobalCtxEvent) (id : ConnId) :
    ConnMap × List GlobalCtxEvent :=
  match lookupConn conns id with
  | some conn =>
      (removeConn conns id, events ++ [GlobalCtxEvent.PeerConnRemoved (get_conn_info conn)])
  | none => (conns, events)

/-- The funnel consuming every id currently queued on the closure channel, in
FIFO order, one at a time. -/
def drain_queue : ConnMap → List GlobalCtxEvent → List ConnId → ConnMap × List GlobalCtxEvent
  | conns, events, [] => (conns, events)
  | conns, events, id :: rest =>
      let r := funnel_process_id conns events id
      drain_queue r.1 r.2 rest

/-- One iteration of the funnel loop in which `recv` yields the queue head. -/
def funnel_step (p : Peer) : Peer :=
  match p.close_event_queue with
  | [] => p
  | id :: rest =>
      let r := funnel_process_id p.conns p.events id
      { p with conns := r.1, events := r.2, close_event_queue := rest }

/-- The five statements of `Peer::add_peer_conn`, in source order, as
transformers of (facade state, handle being added). -/
def addStepSetCloseSender (pc : Peer × PeerConn) : Peer × PeerConn :=
  (pc.1, set_close_event_sender pc.2)

def addStepStartRecvLoop (pc : Peer × PeerConn) : Peer × PeerConn :=
  (pc.1, start_recv_loop pc.2 pc.1.packet_recv_chan)

def addStepStartPingpong (pc : Peer × PeerConn) : Peer × PeerConn :=
  (pc.1, start_pingpong pc.2)

def addStepIssueAdded (pc : Peer × PeerConn) : Peer × PeerConn :=
  (issue_event pc.1 (GlobalCtxEvent.PeerConnAdded (get_conn_info pc.2)), pc.2)

def addStepInsert (pc : Peer × PeerConn) : Peer × PeerConn :=
  ({ pc.1 with conns := insertConn pc.1.conns (get_conn_id pc.2) pc.2 }, pc.2)

def addSteps : List (Peer × PeerConn → Peer × PeerConn) :=
  [addStepSetCloseSender, addStepStartRecvLoop, addStepStartPingpong,
   addStepIssueAdded, addStepInsert]

def runAddSteps (steps : List (Peer × PeerConn → Peer × PeerConn))
    (pc : Peer × PeerConn) : Peer × PeerConn :=
  steps.foldl (fun pc f => f pc) pc

/-- Model of `Peer::add_peer_conn`. -/
def add_peer_conn (p : Peer) (conn : PeerConn) : Peer :=
  (runAddSteps addSteps (p, conn)).1

/-- The handle as it stands after the three wiring calls of `add_peer_conn`. -/
def wire_conn (packet_recv_chan : Nat) (c : PeerConn) : PeerConn :=
  start_pingpong (start_recv_loop (set_close_event_sender c) packet_recv_chan)

/-- Model of `Peer::send_msg`. Third component: the ids of the connections whose own
`send_msg` was invoked (the single arbitrary entry from `iter().next()`). -/
def send_msg (p : Peer) (msg : Nat) : Peer × Option Error × List ConnId :=
  match p.conns with
  | [] => (p, some (Error.PeerNoConnectionError p.peer_node_id), [])
  | (k, conn) :: _ =>
      match conn_send_msg conn msg with
      | none => (p, none, [k])
      | some e => (p, some e, [k])

/-- Outcome of `close_peer_conn`: `Ok(())`, `Err(e)`, or the panic of the
`.unwrap()` on the channel send. -/
inductive CloseOutcome where
  | ok : CloseOutcome
  | err : Error → CloseOutcome
  | panicked : CloseOutcome
deriving DecidableEq, Repr

/-- Model of `Peer::close_peer_conn`: the `contains_key` check, then
`close_event_sender.send(id).await.unwrap()`. The send fails (and the unwrap
panics) only if the funnel has closed the receiving end. -/
def close_peer_conn (p : Peer) (conn_id : ConnId) : Peer × CloseOutcome :=
  let has_key := containsKey p.conns conn_id
  if !has_key then
    (p, CloseOutcome.err Error.NotFound)
  else if p.receiver_closed then
    (p, CloseOutcome.panicked)
  else
    ({ p with close_event_queue := p.close_event_queue ++ [conn_id] }, CloseOutcome.ok)

/-- Model of `Peer::list_peer_conns`: snapshot the handles without holding any lock,
then read each handle's info. -/
def list_peer_conns (p : Peer) : List PeerConnInfo :=
  let conns := p.conns.map (fun kc => kc.2)
  conns.map (fun c => get_conn_info c)

/-- Model of `Drop for Peer`: `shutdown_notifier.notify_one()`. -/
def notify_one (p : Peer) : Peer := { p with shutdown_notified := true }

def drop_peer (p : Peer) : Peer := notify_one p

/-- Funnel loop, `shutdown_notifier.notified()` branch: consume the permit and
`close_event_receiver.close()`. -/
def funnel_shutdown_step (p : Peer) : Peer :=
  if p.shutdown_notified then
    { p with receiver_closed := true, shutdown_notified := false }
  else p

/-- After the receiver is closed and the channel drained, `recv` returns
`None` and the loop breaks. -/
def funnel_recv_would_stop (p : Peer) : Bool :=
  p.receiver_closed && p.close_event_queue.isEmpty

/-- How many `PeerConnRemoved` events in the log concern connection `id`. -/
def removedEventsFor (id : ConnId) (events : List GlobalCtxEvent) : Nat :=
  (events.filter (fun e =>
    match e with
    | GlobalCtxEvent.PeerConnRemoved info => info.conn_id == id
    | _ => false)).length

/-- A sequence of `add_peer_conn` calls. -/
def add_all (p : Peer) (cs : List PeerConn) : Peer := cs.foldl add_peer_conn p

/-! ### Registry lemmas -/

theorem containsKey_cons (kc : ConnId × PeerConn) (rest : ConnMap) (k : ConnId) :
    containsKey (kc :: rest) k = ((kc.1 == k) || containsKey rest k) := by
  simp [containsKey]

theorem containsKey_append (m1 m2 : ConnMap) (k : ConnId) :
    containsKey (m1 ++ m2) k = (containsKey m1 k || containsKey m2 k) := by
  simp [containsKey]

theorem lookupConn_eq_none_of_absent (m : ConnMap) (k : ConnId)
    (h : containsKey m k = false) : lookupConn m k = none := by
  induction m with
  | nil => rfl
  | cons kc rest ih =>
    rw [containsKey_cons] at h
    rcases Bool.or_eq_false_iff.mp h with ⟨h1, h2⟩
    simp [lookupConn, h1, ih h2]

theorem containsKey_of_lookupConn (m : ConnMap) (k : ConnId) (c : PeerConn)
    (h : lookupConn m k = some c) : containsKey m k = true := by
  by_contra hc
  rw [lookupConn_eq_none_of_absent m k (Bool.not_eq_true _ ▸ hc)] at h
  exact Option.noConfusion h

theorem removeConn_not_contains (m : ConnMap) (k : ConnId) :
    containsKey (removeConn m k) k = false := by
  induction m with
  | nil => rfl
  | cons kc rest ih =>
    simp only [removeConn, List.filter_cons] at ih ⊢
    by_cases h : kc.1 = k
    · rw [if_neg (by simp [bne, h])]
      exact ih
    · rw [if_pos (by simp [bne, h]), containsKey_cons]
      simp only [Bool.or_eq_false_iff]
      exact ⟨by simp [h], ih⟩

theorem removeConn_absent_contains (m : ConnMap) (k j : ConnId)
    (h : containsKey m j = false) : containsKey (removeConn m k) j = false := by
  induction m with
  | nil => rfl
  | cons kc rest ih =>
    rw [containsKey_cons] at h
    rcases Bool.or_eq_false_iff.mp h with ⟨h1, h2⟩
    simp only [removeConn, List.filter_cons] at ih ⊢
    by_cases hk : kc.1 = k
    · rw [if_neg (by simp [bne, hk])]
      exact ih h2
    · rw [if_pos (by simp [bne, hk]), containsKey_cons]
      simp only [h1, Bool.false_or]
      exact ih h2

theorem removeConn_eq_self_of_absent (m : ConnMap) (k : ConnId)
    (h : containsKey m k = false) : removeConn m k = m := by
  induction m with
  | nil => rfl
  | cons kc rest ih =>
    rw [containsKey_cons] at h
    rcases Bool.or_eq_false_iff.mp h with ⟨h1, h2⟩
    simp only [removeConn, List.filter_cons] at ih ⊢
    rw [if_pos (by simp [bne, h1]), ih h2]

theorem countKey_eq_zero_of_absent (m : ConnMap) (k : ConnId)
    (h : containsKey m k = false) : countKey m k = 0 := by
  induction m with
  | nil => rfl
  | cons kc rest ih =>
    rw [containsKey_cons] at h
    rcases Bool.or_eq_false_iff.mp h with ⟨h1, h2⟩
    simp only [countKey, List.filter_cons] at ih ⊢
    simp [h1, ih h2]

theorem countKey_removeConn (m : ConnMap) (k : ConnId) :
    countKey (removeConn m k) k = 0 :=
  countKey_eq_zero_of_absent _ _ (removeConn_not_contains m k)

theorem insertConn_contains_self (m : ConnMap) (k : ConnId) (v : PeerConn) :
    containsKey (insertConn m k v) k = true := by
  rw [insertConn, containsKey_append]
  simp [containsKey]

theorem insertConn_countKey_self (m : ConnMap) (k : ConnId) (v : PeerConn) :
    countKey (insertConn m k v) k = 1 := by
  rw [insertConn]
  simp only [countKey, List.filter_append, List.length_append]
  have h0 : countKey (removeConn m k) k = 0 := countKey_removeConn m k
  rw [countKey] at h0
  simp [h0]

theorem lookupConn_append_absent (m1 m2 : ConnMap) (k : ConnId)
    (h : containsKey m1 k = false) :
    lookupConn (m1 ++ m2) k = lookupConn m2 k := by
  induction m1 with
  | nil => rfl
  | cons kc rest ih =>
    rw [containsKey_cons] at h
    rcases Bool.or_eq_false_iff.mp h with ⟨h1, h2⟩
    simp [lookupConn, h1, ih h2]

theorem insertConn_lookup_self (m : ConnMap) (k : ConnId) (v : PeerConn) :
    lookupConn (insertConn m k v) k = some v := by
  rw [insertConn, lookupConn_append_absent _ _ _ (removeConn_not_contains m k)]
  simp [lookupConn]

theorem insertConn_length_of_absent (m : ConnMap) (k : ConnId) (v : PeerConn)
    (h : containsKey m k = false) :
    (insertConn m k v).length = m.length + 1 := by
  rw [insertConn, removeConn_eq_self_of_absent m k h]
  simp

theorem insertConn_absent_contains (m : ConnMap) (k j : ConnId) (v : PeerConn)
    (h : containsKey m j = false) (hne : k ≠ j) :
    containsKey (insertConn m k v) j = false := by
  rw [insertConn, containsKey_append]
  rw [removeConn_absent_contains m k j h]
  simp [containsKey, hne]

/-! ### Well-formedness of the registry -/

theorem connsWF_lookup (m : ConnMap) (k : ConnId) (c : PeerConn)
    (hwf : connsWF m = true) (h : lookupConn m k = some c) : c.info.conn_id = k := by
  induction m with
  | nil => exact Option.noConfusion h
  | cons kc rest ih =>
    obtain ⟨k0, c0⟩ := kc
    simp only [connsWF, Bool.and_eq_true, Bool.not_eq_true', beq_iff_eq] at hwf
    obtain ⟨⟨hinfo, _⟩, hrest⟩ := hwf
    simp only [lookupConn] at h
    by_cases hk : k0 = k
    · rw [if_pos (by simp [hk])] at h
      injection h with h
      subst h
      rw [hinfo]
      exact hk
    · rw [if_neg (by simp [hk])] at h
      exact ih hrest h

theorem connsWF_removeConn (m : ConnMap) (k : ConnId) (hwf : connsWF m = true) :
    connsWF (removeConn m k) = true := by
  induction m with
  | nil => rfl
  | cons kc rest ih =>
    obtain ⟨k0, c0⟩ := kc
    simp only [connsWF, Bool.and_eq_true, Bool.not_eq_true', beq_iff_eq] at hwf
    obtain ⟨⟨hinfo, habs⟩, hrest⟩ := hwf
    simp only [removeConn, List.filter_cons] at ih ⊢
    by_cases hk : k0 = k
    · rw [if_neg (by simp [bne, hk])]
      exact ih hrest
    · rw [if_pos (by simp [bne, hk])]
      simp only [connsWF, Bool.and_eq_true, Bool.not_eq_true', beq_iff_eq]
      refine ⟨⟨hinfo, ?_⟩, ih hrest⟩
      have := removeConn_absent_contains rest k k0 habs
      rw [removeConn] at this
      exact this

theorem connsWF_countKey (m : ConnMap) (k : ConnId) (hwf : connsWF m = true) :
    countKey m k ≤ 1 := by
  induction m with
  | nil => exact Nat.zero_le 1
  | cons kc rest ih =>
    obtain ⟨k0, c0⟩ := kc
    simp only [connsWF, Bool.and_eq_true, Bool.not_eq_true', beq_iff_eq] at hwf
    obtain ⟨⟨hinfo, habs⟩, hrest⟩ := hwf
    simp only [countKey, List.filter_cons]
    by_cases hk : k0 = k
    · rw [if_pos (by simp [hk])]
      subst hk
      have h0 : countKey rest k0 = 0 := countKey_eq_zero_of_absent rest k0 habs
      rw [countKey] at h0
      rw [List.length_cons, h0]
    · rw [if_neg (by simp [hk])]
      exact ih hrest

/-! ### Event-counting lemmas -/

theorem removedEventsFor_append (id : ConnId) (es1 es2 : List GlobalCtxEvent) :
    removedEventsFor id (es1 ++ es2) =
      removedEventsFor id es1 + removedEventsFor id es2 := by
  simp [removedEventsFor, List.filter_append]

theorem removedEventsFor_single_removed (id : ConnId) (info : PeerConnInfo) :
    removedEventsFor id [GlobalCtxEvent.PeerConnRemoved info] =
      if info.conn_id = id then 1 else 0 := by
  by_cases h : info.conn_id = id
  · rw [if_pos h]
    simp [removedEventsFor, List.filter, h]
  · rw [if_neg h]
    have hb : (info.conn_id == id) = false := by simp [h]
    simp [removedEventsFor, List.filter, hb]

/-! ### Funnel drain lemmas -/

theorem drain_no_events_of_absent (queue : List ConnId) :
    ∀ (conns : ConnMap) (events : List GlobalCtxEvent) (id : ConnId),
    connsWF conns = true → containsKey conns id = false →
    removedEventsFor id (drain_queue conns events queue).2 = removedEventsFor id events := by
  induction queue with
  | nil =>
    intro conns events id _ _
    rfl
  | cons j rest ih =>
    intro conns events id hwf habs
    simp only [drain_queue]
    cases hl : lookupConn conns j with
    | none =>
      simp only [funnel_process_id, hl]
      exact ih conns events id hwf habs
    | some c =>
      simp only [funnel_process_id, hl, get_conn_info]
      have hwf' := connsWF_removeConn conns j hwf
      have habs' := removeConn_absent_contains conns j id habs
      rw [ih _ _ id hwf' habs', removedEventsFor_append]
      have hcj : c.info.conn_id = j := connsWF_lookup conns j c hwf hl
      have hjk : j ≠ id := by
        intro he
        subst he
        rw [containsKey_of_lookupConn conns j c hl] at habs
        exact Bool.noConfusion habs
      rw [removedEventsFor_single_removed, if_neg (by rw [hcj]; exact hjk)]
      omega

theorem drain_removed_le_one (queue : List ConnId) :
    ∀ (conns : ConnMap) (events : List GlobalCtxEvent) (id : ConnId),
    connsWF conns = true →
    removedEventsFor id (drain_queue conns events queue).2 ≤
      removedEventsFor id events + 1 := by
  induction queue with
  | nil =>
    intro conns events id _
    exact Nat.le_succ _
  | cons j rest ih =>
    intro conns events id hwf
    simp only [drain_queue]
    cases hl : lookupConn conns j with
    | none =>
      simp only [funnel_process_id, hl]
      exact ih conns events id hwf
    | some c =>
      simp only [funnel_process_id, hl, get_conn_info]
      have hwf' := connsWF_removeConn conns j hwf
      have hcj : c.info.conn_id = j := connsWF_lookup conns j c hwf hl
      by_cases hj : j = id
      · subst hj
        rw [drain_no_events_of_absent rest _ _ j hwf' (removeConn_not_contains conns j),
          removedEventsFor_append, removedEventsFor_single_removed, if_pos hcj]
      · have hle := ih (removeConn conns j)
          (events ++ [GlobalCtxEvent.PeerConnRemoved c.info]) id hwf'
        rw [removedEventsFor_append, removedEventsFor_single_removed,
          if_neg (by rw [hcj]; exact hj)] at hle
        simpa using hle

/-! ### `add_peer_conn` unfolding -/

theorem wire_conn_conn_id (chan : Nat) (c : PeerConn) :
    (wire_conn chan c).conn_id = c.conn_id := rfl

theorem wire_conn_info (chan : Nat) (c : PeerConn) :
    (wire_conn chan c).info = c.info := rfl

theorem add_peer_conn_def (p : Peer) (c : PeerConn) :
    add_peer_conn p c =
      { p with
        events := p.events ++
          [GlobalCtxEvent.PeerConnAdded (get_conn_info (wire_conn p.packet_recv_chan c))],
        conns := insertConn p.conns (get_conn_id (wire_conn p.packet_recv_chan c))
          (wire_conn p.packet_recv_chan c) } := rfl

theorem add_peer_conn_conns (p : Peer) (c : PeerConn) :
    (add_peer_conn p c).conns =
      insertConn p.conns c.conn_id (wire_conn p.packet_recv_chan c) := rfl

theorem add_all_cons (p : Peer) (c : PeerConn) (cs : List PeerConn) :
    add_all p (c :: cs) = add_all (add_peer_conn p c) cs := rfl

theorem add_all_length (cs : List PeerConn) :
    ∀ p : Peer, (cs.map (fun c => c.conn_id)).Nodup →
    (∀ c ∈ cs, containsKey p.conns c.conn_id = false) →
    (add_all p cs).conns.length = p.conns.length + cs.length := by
  induction cs with
  | nil =>
    intro p _ _
    simp [add_all]
  | cons c rest ih =>
    intro p hnd habs
    rw [add_all_cons]
    simp only [List.map_cons, List.nodup_cons] at hnd
    obtain ⟨hnotin, hnd2⟩ := hnd
    have hc : containsKey p.conns c.conn_id = false :=
      habs c (List.mem_cons_self c rest)
    have habs2 : ∀ c2 ∈ rest, containsKey (add_peer_conn p c).conns c2.conn_id = false := by
      intro c2 hc2
      rw [add_peer_conn_conns]
      apply insertConn_absent_contains
      · exact habs c2 (List.mem_cons_of_mem c hc2)
      · intro he
        apply hnotin
        rw [he]
        exact List.mem_map_of_mem (fun c => c.conn_id) hc2
    rw [ih (add_peer_conn p c) hnd2 habs2, add_peer_conn_conns,
      insertConn_length_of_absent p.conns c.conn_id _ hc]
    simp only [List.length_cons]
    omega

/-! ### Concrete values used by the witness theorems -/

def demoConnA : PeerConn :=
  { conn_id := 1
    info := { conn_id := 1, detail := 10 }
    close_event_sender_set := false
    recv_loop_chan := none
    pingpong_started := false
    send_result := none }

def demoConnB : PeerConn :=
  { demoConnA with conn_id := 2, info := { conn_id := 2, detail := 20 } }

def demoConnBad : PeerConn :=
  { demoConnA with send_result := some (Error.TunnelError 7) }

def demoConnA1 : PeerConn :=
  { demoConnA with info := { conn_id := 1, detail := 99 } }

def demoConns : ConnMap := [(1, demoConnA)]

def demoPeer : Peer := { Peer.new 5 0 with conns := demoConns }

def demoPeerBad : Peer := { Peer.new 5 0 with conns := [(1, demoConnBad)] }

def demoEmptyPeer : Peer := Peer.new 9 0

/-! ### Claims -/

/-- C1: for every connection id, the closure funnel performs at most one
registry removal and issues at most one `PeerConnRemoved` event for that id,
even if the id is enqueued twice; dequeuing an id that is no longer in the
registry leaves the registry and the event log unchanged (silent no-op). -/
theorem funnel_removal_idempotent (conns : ConnMap) (events : List GlobalCtxEvent)
    (id : ConnId) (queue : List ConnId) :
    (containsKey conns id = false →
      funnel_process_id conns events id = (conns, events)) ∧
    (connsWF conns = true →
      removedEventsFor id (drain_queue conns events queue).2 ≤
        removedEventsFor id events + 1 ∧
      countKey conns id - countKey (drain_queue conns events queue).1 id ≤ 1) := by
  constructor
  · intro habs
    simp only [funnel_process_id, lookupConn_eq_none_of_absent conns id habs]
  · intro hwf
    refine ⟨drain_removed_le_one queue conns events id hwf, ?_⟩
    calc countKey conns id - countKey (drain_queue conns events queue).1 id
        ≤ countKey conns id := Nat.sub_le _ _
      _ ≤ 1 := connsWF_countKey conns id hwf

theorem funnel_removal_idempotent_apply :
    containsKey demoConns 2 = false ∧ connsWF demoConns = true ∧
    funnel_process_id demoConns [] 2 = (demoConns, []) ∧
    removedEventsFor 2 (drain_queue demoConns [] [2, 2]).2 ≤
      removedEventsFor 2 [] + 1 :=
  ⟨by decide, by decide,
    (funnel_removal_idempotent demoConns [] 2 [2, 2]).1 (by decide),
    ((funnel_removal_idempotent demoConns [] 2 [2, 2]).2 (by decide)).1⟩

/-- C2: for every input id and every registry state, `close_peer_conn` never
panics while the facade is alive (receiver not closed): the unwrapped send on
the closure channel cannot fail. -/
theorem close_peer_conn_never_panics (p : Peer) (id : ConnId)
    (halive : p.receiver_closed = false) :
    (close_peer_conn p id).2 ≠ CloseOutcome.panicked := by
  cases h : containsKey p.conns id <;> simp [close_peer_conn, h, halive]

theorem close_peer_conn_never_panics_apply :
    demoPeer.receiver_closed = false ∧
    (close_peer_conn demoPeer 1).2 ≠ CloseOutcome.panicked :=
  ⟨by decide, close_peer_conn_never_panics demoPeer 1 (by decide)⟩

/-- C3: for every peer with an empty connection registry, `send_msg` fails
with `PeerNoConnectionError` carrying exactly that peer's `peer_node_id`, and
the whole state (registry included) is left unchanged. -/
theorem send_msg_no_connection (p : Peer) (msg : Nat) (h : p.conns = []) :
    send_msg p msg = (p, some (Error.PeerNoConnectionError p.peer_node_id), []) := by
  simp [send_msg, h]

theorem send_msg_no_connection_apply :
    demoEmptyPeer.conns = [] ∧
    send_msg demoEmptyPeer 3 =
      (demoEmptyPeer, some (Error.PeerNoConnectionError demoEmptyPeer.peer_node_id), []) :=
  ⟨rfl, send_msg_no_connection demoEmptyPeer 3 rfl⟩

/-- C4: `close_peer_conn` returns `NotFound` iff the id is absent from the
registry; when the id is present (and the facade alive) it returns ok after
enqueuing the id on the closure channel, and the registry — including that
id — is untouched when the call returns. -/
theorem close_peer_conn_notfound_iff (p : Peer) (id : ConnId) :
    ((close_peer_conn p id).2 = CloseOutcome.err Error.NotFound ↔
      containsKey p.conns id = false) ∧
    (containsKey p.conns id = true → p.receiver_closed = false →
      (close_peer_conn p id).2 = CloseOutcome.ok ∧
      (close_peer_conn p id).1.close_event_queue = p.close_event_queue ++ [id] ∧
      (close_peer_conn p id).1.conns = p.conns ∧
      containsKey (close_peer_conn p id).1.conns id = true) := by
  constructor
  · cases h : containsKey p.conns id
    · simp [close_peer_conn, h]
    · cases hr : p.receiver_closed <;> simp [close_peer_conn, h, hr]
  · intro h hr
    simp [close_peer_conn, h, hr]

theorem close_peer_conn_notfound_iff_apply :
    containsKey demoPeer.conns 1 = true ∧ demoPeer.receiver_closed = false ∧
    (close_peer_conn demoPeer 1).2 = CloseOutcome.ok ∧
    (close_peer_conn demoPeer 1).1.close_event_queue =
      demoPeer.close_event_queue ++ [1] :=
  ⟨by decide, by decide,
    ((close_peer_conn_notfound_iff demoPeer 1).2 (by decide) (by decide)).1,
    ((close_peer_conn_notfound_iff demoPeer 1).2 (by decide) (by decide)).2.1⟩

/-- C5: `add_peer_conn` performs its steps in source order — wire the
close-event sender, start the receive loop, start keep-alive, issue
`PeerConnAdded`, and only then insert into the registry; insertion is the
last step, the first four steps leave the registry unchanged, and after the
call the registry contains the connection's id. -/
theorem add_peer_conn_step_order (p : Peer) (c : PeerConn) :
    addSteps = [addStepSetCloseSender, addStepStartRecvLoop, addStepStartPingpong,
      addStepIssueAdded, addStepInsert] ∧
    addSteps.getLast? = some addStepInsert ∧
    (runAddSteps (addSteps.take 4) (p, c)).1.conns = p.conns ∧
    containsKey (add_peer_conn p c).conns (get_conn_id c) = true := by
  refine ⟨rfl, rfl, rfl, ?_⟩
  exact insertConn_contains_self p.conns c.conn_id (wire_conn p.packet_recv_chan c)

/-- C6: adding n connections with pairwise-distinct ids to a fresh peer, with
no intervening removals, makes `list_peer_conns` return exactly n entries. -/
theorem list_peer_conns_after_distinct_adds (nid chan : Nat) (cs : List PeerConn)
    (h : (cs.map (fun c => c.conn_id)).Nodup) :
    (list_peer_conns (add_all (Peer.new nid chan) cs)).length = cs.length := by
  have hall : ∀ c ∈ cs, containsKey (Peer.new nid chan).conns c.conn_id = false := by
    intro c _
    rfl
  have hlen := add_all_length cs (Peer.new nid chan) h hall
  simp only [list_peer_conns, List.length_map]
  simpa [Peer.new] using hlen

theorem list_peer_conns_after_distinct_adds_apply :
    (([demoConnA, demoConnB].map (fun c => c.conn_id)).Nodup) ∧
    (list_peer_conns (add_all (Peer.new 5 0) [demoConnA, demoConnB])).length = 2 :=
  ⟨by decide, list_peer_conns_after_distinct_adds 5 0 [demoConnA, demoConnB] (by decide)⟩

/-- C7: on a non-empty registry, `send_msg` attempts the send on exactly one
connection (the arbitrary first entry of the registry iterator), and the
connection's own send failure is propagated to the caller unmodified, with no
retry on any other connection. -/
theorem send_msg_single_attempt (p : Peer) (msg : Nat) (k : ConnId) (c : PeerConn)
    (rest : List (ConnId × PeerConn)) (h : p.conns = (k, c) :: rest) :
    (send_msg p msg).2.2 = [k] ∧ (send_msg p msg).2.1 = conn_send_msg c msg := by
  cases hs : conn_send_msg c msg <;> simp [send_msg, h, conn_send_msg] at hs ⊢ <;>
    simp [hs]

theorem send_msg_single_attempt_apply :
    demoPeerBad.conns = [(1, demoConnBad)] ∧
    (send_msg demoPeerBad 3).2.2 = [1] ∧
    (send_msg demoPeerBad 3).2.1 = conn_send_msg demoConnBad 3 :=
  ⟨rfl,
    (send_msg_single_attempt demoPeerBad 3 1 demoConnBad [] rfl).1,
    (send_msg_single_attempt demoPeerBad 3 1 demoConnBad [] rfl).2⟩

/-- C8: destroying the `Peer` fires the shutdown signal; firing it again is
safe and idempotent; once notified, the funnel closes the channel's receiving
end (and, with the channel drained, its next `recv` returns none and the loop
exits); a repeated notification causes no further state change. -/
theorem shutdown_fired_once_idempotent (p : Peer) :
    (drop_peer p).shutdown_notified = true ∧
    drop_peer (drop_peer p) = drop_peer p ∧
    (funnel_shutdown_step (drop_peer p)).receiver_closed = true ∧
    funnel_shutdown_step (notify_one (funnel_shutdown_step (drop_peer p))) =
      funnel_shutdown_step (drop_peer p) ∧
    (p.close_event_queue = [] →
      funnel_recv_would_stop (funnel_shutdown_step (drop_peer p)) = true) := by
  refine ⟨rfl, rfl, ?_, ?_, ?_⟩
  · simp [drop_peer, notify_one, funnel_shutdown_step]
  · simp [drop_peer, notify_one, funnel_shutdown_step]
  · intro h
    simp [drop_peer, notify_one, funnel_shutdown_step, funnel_recv_would_stop, h]

theorem shutdown_fired_once_idempotent_apply :
    demoEmptyPeer.close_event_queue = [] ∧
    funnel_recv_would_stop (funnel_shutdown_step (drop_peer demoEmptyPeer)) = true :=
  ⟨rfl, (shutdown_fired_once_idempotent demoEmptyPeer).2.2.2.2 rfl⟩

/-- C9: calling `add_peer_conn` with a connection whose id is already in the
registry does not fail: the insert silently replaces the previous entry, so
afterwards the registry holds exactly one entry for that id, the newly added
(wired) handle. -/
theorem add_peer_conn_replaces_existing (p : Peer) (c : PeerConn)
    (_h : containsKey p.conns c.conn_id = true) :
    countKey (add_peer_conn p c).conns c.conn_id = 1 ∧
    lookupConn (add_peer_conn p c).conns c.conn_id =
      some (wire_conn p.packet_recv_chan c) := by
  constructor
  · exact insertConn_countKey_self p.conns c.conn_id _
  · exact insertConn_lookup_self p.conns c.conn_id _

theorem add_peer_conn_replaces_existing_apply :
    containsKey demoPeer.conns demoConnA1.conn_id = true ∧
    countKey (add_peer_conn demoPeer demoConnA1).conns demoConnA1.conn_id = 1 ∧
    lookupConn (add_peer_conn demoPeer demoConnA1).conns demoConnA1.conn_id =
      some (wire_conn demoPeer.packet_recv_chan demoConnA1) :=
  ⟨by decide,
    (add_peer_conn_replaces_existing demoPeer demoConnA1 (by decide)).1,
    (add_peer_conn_replaces_existing demoPeer demoConnA1 (by decide)).2⟩

/-- C10: `send_msg` never inserts into or removes from the registry (nor does
it touch the closure queue or the event log); in particular when the chosen
connection's send fails, that connection is still registered afterwards —
removal can only occur through the closure funnel. -/
theorem send_msg_registry_frame (p : Peer) (msg : Nat) :
    (send_msg p msg).1.conns = p.conns ∧
    (send_msg p msg).1.close_event_queue = p.close_event_queue ∧
    (send_msg p msg).1.events = p.events ∧
    (∀ k c rest, p.conns = (k, c) :: rest → conn_send_msg c msg ≠ none →
      containsKey (send_msg p msg).1.conns k = true) := by
  have hp : (send_msg p msg).1 = p := by
    cases hm : p.conns with
    | nil => simp [send_msg, hm]
    | cons kc rest =>
      obtain ⟨k, c⟩ := kc
      cases hs : conn_send_msg c msg <;> simp [send_msg, hm, conn_send_msg] at hs ⊢ <;>
        simp [hs]
  refine ⟨by rw [hp], by rw [hp], by rw [hp], ?_⟩
  intro k c rest hcons _
  rw [hp, hcons, containsKey_cons]
  simp

theorem send_msg_registry_frame_apply :
    (send_msg demoPeerBad 3).1.conns = demoPeerBad.conns ∧
    conn_send_msg demoConnBad 3 ≠ none ∧
    containsKey (send_msg demoPeerBad 3).1.conns 1 = true :=
  ⟨(send_msg_registry_frame demoPeerBad 3).1, by decide,
    (send_msg_registry_frame demoPeerBad 3).2.2.2 1 demoConnBad [] rfl (by decide)⟩

end EasyTier
